import Mathlib

/-!
Verification of the `automatic-curriculum` repository against its
natural-language specification.

We shallow-embed the two components the claims are about:

* `menv/menv.py` — the meta-environment `MEnv`: a wrapper over a fixed
  ordered collection of sub-environments that, on each `reset`, selects a
  sub-environment by a categorical draw from a sampling distribution, and
  (when both callbacks are supplied) recomputes that distribution from a
  learning-progress signal derived from the just-finished episode's return.
* `utils/format.py` — the bounded `Vocabulary` (token → id mapping) and the
  observation preprocessor's instruction pipeline (lowercase, split into
  runs of a–z, map tokens to ids, zero-pad to the longest row).

Python floats are modelled as rationals (`ℚ`); the injected random draw
`r ∈ [0,1)` models numpy's internal uniform sample; exceptions are modelled
with `Except`, returning the mutated state alongside the error since Python
objects keep the mutations performed before a raise.
-/

namespace AutoCurriculum

/-- A sub-environment, as consumed by `MEnv` (the minimal capability set
`reset`, `step`, `render`): a state machine with state type `σ`. The Python
objects come from `G.nodes` already constructed, so each carries its current
state paired with pure transition functions. `step` returns
(observation, reward, done, info). -/
structure SubEnv (σ Obs Act Info : Type) where
  state : σ
  resetFn : σ → Obs × σ
  stepFn : σ → Act → (Obs × ℚ × Bool × Info) × σ
  renderFn : σ → String → Obs

instance {σ Obs Act Info : Type} [Inhabited σ] [Inhabited Obs] [Inhabited Info] :
    Inhabited (SubEnv σ Obs Act Info) :=
  ⟨{ state := default
     resetFn := fun s => (default, s)
     stepFn := fun s _ => ((default, 0, false, default), s)
     renderFn := fun _ _ => default }⟩

/-- Inverse-CDF categorical selection: the index whose cumulative
probability interval contains `r`.  This is `numpy.random.choice`'s draw
once the weights have been validated: with `cdf` the running sums of `p`,
the chosen index is the number of cdf entries `≤ r` (searchsorted-right). -/
def categorical : List ℚ → ℚ → Nat
  | [], _ => 0
  | q :: qs, r => if r < q then 0 else categorical qs (r - q) + 1

/-- Model of `numpy.random.choice(range(n), p=p)` with the uniform sample `r` made
explicit.  numpy validates the weights before drawing: it raises `ValueError`
when `len(p) ≠ n`, when some entry is negative, or when the weights do not
sum to 1 (within numpy's absolute tolerance; exact over `ℚ`). -/
def npChoice (n : Nat) (p : List ℚ) (r : ℚ) : Except String Nat :=
  if p.length ≠ n then .error "a and p must have same size"
  else if p.any (fun q => q < 0) then .error "probabilities are not non-negative"
  else if p.sum ≠ 1 then .error "probabilities do not sum to 1"
  else .ok (categorical p r)

/-- The meta-environment state (`MEnv.__init__`'s fields).  `envs` is the
fixed ordered collection `list(G.nodes)`; `env_id` is `None` before the
first selection; `returnn` is the episode accumulator (`None` before the
first reset); `lps` the last learning-progress signal; `distrib` the
current sampling distribution. The Python `self.env` reference is always
`self.envs[self.env_id]`, recovered here by `activeEnv`. `menv_logger` is
`None` for the whole lifetime in the source, so it is omitted. -/
structure MEnv (σ Obs Act Info : Type) where
  envs : List (SubEnv σ Obs Act Info)
  compute_lp : Option (Nat → ℚ → ℚ)
  compute_distrib : Option (ℚ → List ℚ)
  env_id : Option Nat
  returnn : Option ℚ
  lps : Option ℚ
  distrib : List ℚ

variable {σ Obs Act Info : Type}

/-- Field `self.num_envs = len(self.envs)`. -/
def MEnv.num_envs (m : MEnv σ Obs Act Info) : Nat := m.envs.length

/-- The active selection `self.env = self.envs[self.env_id]`; `none`
models Python's `self.env = None`. -/
def MEnv.activeEnv (m : MEnv σ Obs Act Info) :
    Option (SubEnv σ Obs Act Info) :=
  m.env_id.bind fun i => m.envs.get? i

/-- First phase of `MEnv.reset`: when an episode was active
(`self.returnn is not None`) and both callbacks were supplied, compute the
learning progress from `(self.env_id, self.returnn)` and replace the
sampling distribution wholesale by the distribution callback's output. -/
def MEnv.updateDistrib (m : MEnv σ Obs Act Info) : MEnv σ Obs Act Info :=
  match m.returnn, m.compute_lp, m.compute_distrib with
  | some ret, some f, some g =>
      let lp := f (m.env_id.getD 0) ret
      { m with lps := some lp, distrib := g lp }
  | _, _, _ => m

/-- Method `MEnv.reset`: update the distribution (phase above), reset the episode
accumulator to 0, draw a new index from the current distribution
(`_select_env`), set the active selection, and delegate to the selected
sub-environment's `reset`, returning its observation unchanged.  On a
`ValueError` from `numpy.random.choice`, the mutations already performed
(distribution replacement, accumulator reset) persist on the object. -/
def MEnv.reset [Inhabited σ] [Inhabited Obs] [Inhabited Info]
    (m : MEnv σ Obs Act Info) (r : ℚ) :
    MEnv σ Obs Act Info × Except String Obs :=
  let m1 := m.updateDistrib
  let m2 := { m1 with returnn := some 0 }
  match npChoice m2.envs.length m2.distrib r with
  | .error e => (m2, .error e)
  | .ok i =>
      let e := m2.envs.getD i default
      let (obs, s) := e.resetFn e.state
      ({ m2 with env_id := some i,
                 envs := m2.envs.set i { e with state := s } }, .ok obs)

/-- Constructor `MEnv.__init__`: store the collection and the (optional) callbacks,
initialise the distribution uniform (`numpy.ones(N)/N`), leave
`env_id`/`returnn`/`lps` as `None`, then call `reset()`. -/
def MEnv.make [Inhabited σ] [Inhabited Obs] [Inhabited Info]
    (envs : List (SubEnv σ Obs Act Info))
    (compute_lp : Option (Nat → ℚ → ℚ))
    (compute_distrib : Option (ℚ → List ℚ)) (r : ℚ) :
    MEnv σ Obs Act Info × Except String Obs :=
  let m0 : MEnv σ Obs Act Info :=
    { envs := envs
      compute_lp := compute_lp
      compute_distrib := compute_distrib
      env_id := none
      returnn := none
      lps := none
      distrib := List.replicate envs.length ((1 : ℚ) / envs.length) }
  m0.reset r

/-- Method `MEnv.step`: delegate to the active sub-environment's `step(action)`,
add the returned reward to the accumulator, and return the
(obs, reward, done, info) tuple unchanged.  `none` models the
`AttributeError`/`TypeError` Python raises when `self.env` or
`self.returnn` is still `None` (impossible after construction). -/
def MEnv.step [Inhabited σ] [Inhabited Obs] [Inhabited Info]
    (m : MEnv σ Obs Act Info) (a : Act) :
    Option ((Obs × ℚ × Bool × Info) × MEnv σ Obs Act Info) :=
  match m.env_id, m.returnn with
  | some i, some ret =>
      let e := m.envs.getD i default
      let (out, s) := e.stepFn e.state a
      some (out, { m with envs := m.envs.set i { e with state := s },
                          returnn := some (ret + out.2.1) })
  | _, _ => none

/-- Method `MEnv.render`: delegate unchanged to the active sub-environment. -/
def MEnv.render (m : MEnv σ Obs Act Info) (mode : String) : Option Obs :=
  m.activeEnv.map fun e => e.renderFn e.state mode

/-- One call in a reset/step trace against the meta-environment; a reset
carries the uniform sample `r` that numpy would draw internally. -/
inductive MCall (Act : Type) : Type
  | reset (r : ℚ)
  | step (a : Act)
  | render (mode : String)

/-- Run a sequence of reset/step calls, keeping only the final state
(a failing step leaves the state unchanged, as the raise aborts the call
before any mutation; a failing reset keeps the mutations made before the
raise, which `MEnv.reset` already returns). -/
def MEnv.runCalls [Inhabited σ] [Inhabited Obs] [Inhabited Info]
    (m : MEnv σ Obs Act Info) : List (MCall Act) → MEnv σ Obs Act Info
  | [] => m
  | .reset r :: cs => MEnv.runCalls (m.reset r).1 cs
  | .step a :: cs =>
      match m.step a with
      | some (_, m2) => MEnv.runCalls m2 cs
      | none => MEnv.runCalls m cs
  | .render _ :: cs => MEnv.runCalls m cs

/-- Run a sequence of steps (one episode's worth of actions), collecting
the rewards the delegated `step` calls returned. -/
def MEnv.runSteps [Inhabited σ] [Inhabited Obs] [Inhabited Info]
    (m : MEnv σ Obs Act Info) : List Act → MEnv σ Obs Act Info × List ℚ
  | [] => (m, [])
  | a :: as =>
      match m.step a with
      | some (out, m2) =>
          let (mf, rs) := MEnv.runSteps m2 as
          (mf, out.2.1 :: rs)
      | none => (m, [])

/-! ## `utils/format.py`: Vocabulary and the instruction preprocessor -/

/-- Path helper `get_vocab_path(run_dir)`: `os.path.join(run_dir, "vocab.json")`. -/
def get_vocab_path (run_dir : String) : String := run_dir ++ "/vocab.json"

/-- The filesystem fragment the Vocabulary touches: a map from paths to the
JSON-serialised token → id mapping (Python dicts keep insertion order, so a
file's content is the ordered association list). -/
structure FS where
  files : List (String × List (String × Nat))

/-- Reading a file, `os.path.exists` + `json.load`: the content at path `p`, when present. -/
def FS.read (fs : FS) (p : String) : Option (List (String × Nat)) :=
  (fs.files.find? (fun f => f.1 == p)).map (fun f => f.2)

/-- Writing a file, `json.dump(…, open(p, "w"))`: overwrite the file at `p`. -/
def FS.write (fs : FS) (p : String) (c : List (String × Nat)) : FS :=
  ⟨(p, c) :: fs.files.filter (fun f => !(f.1 == p))⟩

/-- Structure `Vocabulary`'s fields: the vocab path, the capacity (`max_size = 100`),
and the token → id mapping (ordered, as a Python dict is). -/
structure Vocabulary where
  path : String
  max_size : Nat
  vocab : List (String × Nat)

/-- Constructor `Vocabulary.__init__(run_dir)`: store the path, set `max_size = 100`,
start from `{}` and load the file at the path when it exists. -/
def Vocabulary.init (run_dir : String) (fs : FS) : Vocabulary :=
  let path := get_vocab_path run_dir
  { path := path, max_size := 100, vocab := (fs.read path).getD [] }

/-- Lookup test `token in self.vocab.keys()` resolved to the stored id. -/
def Vocabulary.lookup (v : Vocabulary) (t : String) : Option Nat :=
  (v.vocab.find? (fun e => e.1 == t)).map (fun e => e.2)

/-- Item access `Vocabulary.__getitem__(token)`: an unseen token is assigned
`len(self.vocab) + 1` as its id unless the mapping already holds `max_size`
entries, in which case a `ValueError` is raised before any mutation; the
(possibly extended) mapping's id for the token is returned. -/
def Vocabulary.getItem (v : Vocabulary) (t : String) :
    Vocabulary × Except String Nat :=
  match v.vocab.find? (fun e => e.1 == t) with
  | some e => (v, .ok e.2)
  | none =>
      if v.max_size ≤ v.vocab.length then
        (v, .error "Maximum vocabulary capacity reached")
      else
        ({ v with vocab := v.vocab ++ [(t, v.vocab.length + 1)] },
         .ok (v.vocab.length + 1))

/-- Method `Vocabulary.save()`: write the mapping to the vocab path (the
`create_folders_if_necessary` call only affects directories). -/
def Vocabulary.save (v : Vocabulary) (fs : FS) : FS := fs.write v.path v.vocab

/-- A character matched by the `[a-z]` class of the tokenising regex. -/
def isLowerAlpha (c : Char) : Bool := 'a' ≤ c && c ≤ 'z'

/-- Helper for `re.findall("([a-z]+)", s)`: split a character list into the
maximal runs of `a`–`z` characters, `acc` holding the (reversed) run in
progress. -/
def alphaRunsAux : List Char → List Char → List (List Char)
  | [], acc => if acc.isEmpty then [] else [acc.reverse]
  | c :: cs, acc =>
      if isLowerAlpha c then alphaRunsAux cs (c :: acc)
      else if acc.isEmpty then alphaRunsAux cs []
      else acc.reverse :: alphaRunsAux cs []

/-- Tokenisation `re.findall("([a-z]+)", s.lower())`: lowercase, then the maximal runs
of letters `a`–`z`. -/
def tokenize (s : String) : List String :=
  (alphaRunsAux (s.data.map Char.toLower) []).map (fun l => String.mk l)

/-- Comprehension `[self.vocab[token] for token in tokens]`: map the tokens through the
vocabulary left to right, threading its mutations; a capacity error aborts
the list but keeps the mutations made so far. -/
def Vocabulary.mapTokens (v : Vocabulary) (ts : List String) :
    Vocabulary × Except String (List Nat) :=
  match ts with
  | [] => (v, .ok [])
  | t :: rest =>
      match v.getItem t with
      | (v2, .error e) => (v2, .error e)
      | (v2, .ok i) =>
          match Vocabulary.mapTokens v2 rest with
          | (v3, .error e) => (v3, .error e)
          | (v3, .ok l) => (v3, .ok (i :: l))

/-- The first loop of `ObssPreprocessor.__call__`'s instruction branch:
tokenise each observation's `"mission"` and map the tokens to ids,
collecting the raw (unpadded) id rows. -/
def Vocabulary.processMissions (v : Vocabulary) (missions : List String) :
    Vocabulary × Except String (List (List Nat)) :=
  match missions with
  | [] => (v, .ok [])
  | mi :: ms =>
      match v.mapTokens (tokenize mi) with
      | (v2, .error e) => (v2, .error e)
      | (v2, .ok row) =>
          match Vocabulary.processMissions v2 ms with
          | (v3, .error e) => (v3, .error e)
          | (v3, .ok rows) => (v3, .ok (row :: rows))

/-- Accumulator `max_instr_len`: the running `max(len(instr), max_instr_len)` over the
rows, starting from 0. -/
def maxInstrLen (rows : List (List Nat)) : Nat :=
  rows.foldl (fun acc row => max row.length acc) 0

/-- One row of `instrs`: `numpy.zeros` makes every entry 0 and
`instrs[i, :len(instr)] = instr` writes the ids over the first
`len(instr)` positions, so row `i` is the ids followed by zeros. -/
def padRow (row : List Nat) (len : Nat) : List Nat :=
  row ++ List.replicate (len - row.length) 0

/-- The instruction branch of `ObssPreprocessor.__call__`: raw id rows,
then the `(len(obss), max_instr_len)` zero-initialised matrix with each
row's ids written at its start. -/
def Vocabulary.preprocessInstrs (v : Vocabulary) (missions : List String) :
    Vocabulary × Except String (List (List Nat)) :=
  match v.processMissions missions with
  | (v2, .error e) => (v2, .error e)
  | (v2, .ok rows) => (v2, .ok (rows.map (fun row => padRow row (maxInstrLen rows))))

/-! ## Auxiliary predicates -/

/-- The active-selection invariant: `self.env_id` designates a position of
the fixed collection (and so `self.env` is one of its sub-environments). -/
def MEnv.GoodSel (m : MEnv σ Obs Act Info) : Prop :=
  ∃ i, m.env_id = some i ∧ i < m.envs.length

/-- The random draw a reset consumes lies in `[0, 1)`, as numpy's internal
uniform sample always does. -/
def MCall.validR {Act : Type} : MCall Act → Prop
  | .reset r => 0 ≤ r ∧ r < 1
  | _ => True

/-- The ids stored in the vocabulary are exactly `1, 2, …, len` in
insertion order, and the mapping is within capacity. -/
def Vocabulary.ConsecIds (v : Vocabulary) : Prop :=
  v.vocab.map Prod.snd = List.range' 1 v.vocab.length ∧
    v.vocab.length ≤ v.max_size

/-! ## Concrete instances used by the witnesses -/

/-- A deterministic test sub-environment: observation encodes the id `k`
and an internal counter; each `step` returns the action's value as the
reward. -/
def testEnv (k : Nat) : SubEnv Nat Nat Nat Nat :=
  { state := 0
    resetFn := fun s => (100 * k + s, s + 1)
    stepFn := fun s a => ((10 * k + s, (a : ℚ), false, k), s + 1)
    renderFn := fun s _ => s }

/-- A meta-environment mid-run with both callbacks supplied; the
distribution callback yields the valid distribution `[1/4, 3/4]`. -/
def mBoth : MEnv Nat Nat Nat Nat :=
  { envs := [testEnv 0, testEnv 1]
    compute_lp := some (fun i q => q + i)
    compute_distrib := some (fun _ => [1/4, 3/4])
    env_id := some 1
    returnn := some 5
    lps := none
    distrib := [1/2, 1/2] }

/-- A meta-environment at the start of an episode (accumulator 0, active
index 1), both callbacks supplied. -/
def mZero : MEnv Nat Nat Nat Nat :=
  { envs := [testEnv 0, testEnv 1]
    compute_lp := some (fun i q => q + i)
    compute_distrib := some (fun _ => [1/4, 3/4])
    env_id := some 1
    returnn := some 0
    lps := none
    distrib := [1/2, 1/2] }

/-- A meta-environment mid-run whose distribution callback returns a
one-entry vector although `N = 2`. -/
def mBad : MEnv Nat Nat Nat Nat :=
  { envs := [testEnv 0, testEnv 1]
    compute_lp := some (fun i q => q + i)
    compute_distrib := some (fun _ => [1])
    env_id := some 0
    returnn := some 3
    lps := none
    distrib := [1/2, 1/2] }

/-- A two-token vocabulary at capacity 2 (`"a" → 1`, `"b" → 2`), the
spec's capacity scenario. -/
def vAB : Vocabulary :=
  { path := "run/vocab.json", max_size := 2, vocab := [("a", 1), ("b", 2)] }

/-- A fresh, empty vocabulary with the source's capacity of 100. -/
def vEmpty : Vocabulary :=
  { path := "run/vocab.json", max_size := 100, vocab := [] }

/-! ## Helper lemmas: categorical sampling and `numpy.random.choice` -/

theorem categorical_lt (p : List ℚ) (r : ℚ) (h0 : 0 ≤ r) (hr : r < p.sum) :
    categorical p r < p.length := by
  induction p generalizing r with
  | nil =>
      simp only [List.sum_nil] at hr
      exact absurd h0 (not_le.mpr hr)
  | cons q qs ih =>
      show (if r < q then 0 else categorical qs (r - q) + 1) < qs.length + 1
      by_cases hq : r < q
      · simp [hq]
      · have hle : q ≤ r := not_lt.mp hq
        have h0' : 0 ≤ r - q := by linarith
        have hr' : r - q < qs.sum := by
          simp only [List.sum_cons] at hr
          linarith
        simp only [if_neg hq]
        exact Nat.add_lt_add_right (ih (r - q) h0' hr') 1

theorem npChoice_ok_of_valid (n : Nat) (p : List ℚ) (r : ℚ)
    (hlen : p.length = n) (hnn : ∀ q ∈ p, 0 ≤ q) (hsum : p.sum = 1) :
    npChoice n p r = .ok (categorical p r) := by
  have hany : p.any (fun q => decide (q < 0)) = false := by
    rw [List.any_eq_false]
    intro q hq
    simp [not_lt.mpr (hnn q hq)]
  unfold npChoice
  simp [hlen, hsum, hany]

theorem npChoice_ok_elim (n : Nat) (p : List ℚ) (r : ℚ) (i : Nat)
    (h : npChoice n p r = .ok i) :
    p.length = n ∧ p.sum = 1 ∧ i = categorical p r := by
  unfold npChoice at h
  split_ifs at h with h1 h2 h3
  injection h with h
  exact ⟨not_ne_iff.mp h1, not_ne_iff.mp h3, h.symm⟩

/-! ## Helper lemmas: the reset/step state transitions -/

@[simp] theorem updateDistrib_envs (m : MEnv σ Obs Act Info) :
    m.updateDistrib.envs = m.envs := by
  unfold MEnv.updateDistrib
  split <;> rfl

@[simp] theorem updateDistrib_env_id (m : MEnv σ Obs Act Info) :
    m.updateDistrib.env_id = m.env_id := by
  unfold MEnv.updateDistrib
  split <;> rfl

@[simp] theorem updateDistrib_returnn (m : MEnv σ Obs Act Info) :
    m.updateDistrib.returnn = m.returnn := by
  unfold MEnv.updateDistrib
  split <;> rfl

@[simp] theorem updateDistrib_compute_lp (m : MEnv σ Obs Act Info) :
    m.updateDistrib.compute_lp = m.compute_lp := by
  unfold MEnv.updateDistrib
  split <;> rfl

@[simp] theorem updateDistrib_compute_distrib (m : MEnv σ Obs Act Info) :
    m.updateDistrib.compute_distrib = m.compute_distrib := by
  unfold MEnv.updateDistrib
  split <;> rfl

theorem updateDistrib_of_some (m : MEnv σ Obs Act Info)
    (f : Nat → ℚ → ℚ) (g : ℚ → List ℚ) (ret : ℚ)
    (hf : m.compute_lp = some f) (hg : m.compute_distrib = some g)
    (hret : m.returnn = some ret) :
    m.updateDistrib.distrib = g (f (m.env_id.getD 0) ret) ∧
      m.updateDistrib.lps = some (f (m.env_id.getD 0) ret) := by
  unfold MEnv.updateDistrib
  rw [hf, hg, hret]
  exact ⟨rfl, rfl⟩

theorem updateDistrib_of_none (m : MEnv σ Obs Act Info)
    (h : m.compute_lp = none ∨ m.compute_distrib = none) :
    m.updateDistrib = m := by
  unfold MEnv.updateDistrib
  rcases hret : m.returnn with _ | ret
  · rfl
  · rcases hf : m.compute_lp with _ | f
    · rfl
    · rcases hg : m.compute_distrib with _ | g
      · rfl
      · rcases h with h | h
        · rw [hf] at h; cases h
        · rw [hg] at h; cases h

/-- Unfolding `MEnv.reset` when the categorical draw succeeds: the
field-by-field description of the state after the reset and of the
returned observation. -/
theorem reset_ok_fields (m : MEnv σ Obs Act Info) [Inhabited σ]
    [Inhabited Obs] [Inhabited Info] (r : ℚ) (i : Nat)
    (h : npChoice m.envs.length m.updateDistrib.distrib r = .ok i) :
    (m.reset r).1.env_id = some i ∧
    (m.reset r).1.distrib = m.updateDistrib.distrib ∧
    (m.reset r).1.lps = m.updateDistrib.lps ∧
    (m.reset r).1.returnn = some 0 ∧
    (m.reset r).1.compute_lp = m.compute_lp ∧
    (m.reset r).1.compute_distrib = m.compute_distrib ∧
    (m.reset r).1.envs = m.envs.set i
      { m.envs.getD i default with
        state := ((m.envs.getD i default).resetFn
                    (m.envs.getD i default).state).2 } ∧
    (m.reset r).2 = .ok ((m.envs.getD i default).resetFn
                           (m.envs.getD i default).state).1 := by
  unfold MEnv.reset
  simp only [updateDistrib_envs, h]
  simp

/-- Unfolding `MEnv.reset` when the categorical draw raises: the
distribution update and the accumulator reset persist; nothing else
changes and the error propagates. -/
theorem reset_error_fields (m : MEnv σ Obs Act Info) [Inhabited σ]
    [Inhabited Obs] [Inhabited Info] (r : ℚ) (e : String)
    (h : npChoice m.envs.length m.updateDistrib.distrib r = .error e) :
    (m.reset r).1 = { m.updateDistrib with returnn := some 0 } ∧
      (m.reset r).2 = .error e := by
  unfold MEnv.reset
  simp only [updateDistrib_envs, h]
  simp

/-- Unfolding `MEnv.step` when an episode is active. -/
theorem step_eq (m : MEnv σ Obs Act Info) [Inhabited σ] [Inhabited Obs]
    [Inhabited Info] (a : Act) (i : Nat) (ret : ℚ)
    (hi : m.env_id = some i) (hret : m.returnn = some ret) :
    m.step a = some
      (((m.envs.getD i default).stepFn (m.envs.getD i default).state a).1,
       { m with
         envs := m.envs.set i
           { m.envs.getD i default with
             state := ((m.envs.getD i default).stepFn
                         (m.envs.getD i default).state a).2 }
         returnn := some (ret + ((m.envs.getD i default).stepFn
                         (m.envs.getD i default).state a).1.2.1) }) := by
  unfold MEnv.step
  rw [hi, hret]

theorem updateDistrib_of_returnn_none (m : MEnv σ Obs Act Info)
    (h : m.returnn = none) : m.updateDistrib = m := by
  unfold MEnv.updateDistrib
  rw [h]

theorem step_some_preserves (m : MEnv σ Obs Act Info) [Inhabited σ]
    [Inhabited Obs] [Inhabited Info] (a : Act)
    (out : Obs × ℚ × Bool × Info) (m2 : MEnv σ Obs Act Info)
    (h : m.step a = some (out, m2)) :
    m2.distrib = m.distrib ∧ m2.compute_lp = m.compute_lp ∧
    m2.compute_distrib = m.compute_distrib ∧ m2.env_id = m.env_id ∧
    m2.envs.length = m.envs.length ∧
    (∀ ret, m.returnn = some ret → m2.returnn = some (ret + out.2.1)) := by
  rcases hi : m.env_id with _ | i
  · simp [MEnv.step, hi] at h
  rcases hret : m.returnn with _ | ret
  · simp [MEnv.step, hi, hret] at h
  rw [step_eq m a i ret hi hret] at h
  simp only [Option.some.injEq, Prod.mk.injEq] at h
  obtain ⟨h1, h2⟩ := h
  subst h2
  subst h1
  refine ⟨rfl, rfl, rfl, hi, by simp, ?_⟩
  intro ret2 hret2
  simp only [hret, Option.some.injEq] at hret2
  subst hret2
  rfl

theorem runSteps_cons_of_step (m m2 : MEnv σ Obs Act Info) [Inhabited σ]
    [Inhabited Obs] [Inhabited Info] (out : Obs × ℚ × Bool × Info)
    (a : Act) (as : List Act) (h : m.step a = some (out, m2)) :
    m.runSteps (a :: as) = ((m2.runSteps as).1, out.2.1 :: (m2.runSteps as).2) := by
  conv_lhs => rw [MEnv.runSteps]
  rw [h]

theorem runSteps_returnn (m : MEnv σ Obs Act Info) [Inhabited σ]
    [Inhabited Obs] [Inhabited Info] (as : List Act) (i : Nat) (ret : ℚ)
    (hi : m.env_id = some i) (hret : m.returnn = some ret) :
    (m.runSteps as).1.returnn = some (ret + ((m.runSteps as).2).sum) ∧
    (m.runSteps as).1.env_id = some i ∧
    (m.runSteps as).1.compute_lp = m.compute_lp ∧
    (m.runSteps as).1.compute_distrib = m.compute_distrib := by
  induction as generalizing m ret with
  | nil => simp [MEnv.runSteps, hret, hi]
  | cons a as ih =>
      obtain ⟨out, m2, hm⟩ : ∃ o m2, m.step a = some (o, m2) :=
        ⟨_, _, step_eq m a i ret hi hret⟩
      obtain ⟨_, hclp, hcd, hid, _, hrtn⟩ := step_some_preserves m a out m2 hm
      rw [runSteps_cons_of_step m m2 out a as hm]
      obtain ⟨h1, h2, h3, h4⟩ := ih m2 (ret + out.2.1) (hid.trans hi) (hrtn ret hret)
      refine ⟨?_, h2, h3.trans hclp, h4.trans hcd⟩
      show (m2.runSteps as).1.returnn = _
      rw [h1, List.sum_cons, add_assoc]

theorem uniform_sum (n : Nat) (hn : 1 ≤ n) :
    (List.replicate n ((1 : ℚ) / n)).sum = 1 := by
  rw [List.sum_replicate, nsmul_eq_mul]
  have h0 : (n : ℚ) ≠ 0 := Nat.cast_ne_zero.mpr (by omega)
  field_simp

theorem npChoice_uniform_ok (n : Nat) (r : ℚ) (hn : 1 ≤ n) :
    npChoice n (List.replicate n ((1 : ℚ) / n)) r =
      .ok (categorical (List.replicate n ((1 : ℚ) / n)) r) := by
  apply npChoice_ok_of_valid
  · simp
  · intro q hq
    rw [List.eq_of_mem_replicate hq]
    positivity
  · exact uniform_sum n hn

/-- After any trace of calls on a meta-environment missing at least one
callback, the sampling distribution (and the absence of a callback) is
untouched: the distribution-update branch of `reset` never runs and `step`
does not write `self.distrib`. -/
theorem runCalls_static (m : MEnv σ Obs Act Info) [Inhabited σ]
    [Inhabited Obs] [Inhabited Info] (cs : List (MCall Act))
    (hcb : m.compute_lp = none ∨ m.compute_distrib = none) :
    (m.runCalls cs).distrib = m.distrib ∧
    ((m.runCalls cs).compute_lp = none ∨
      (m.runCalls cs).compute_distrib = none) := by
  induction cs generalizing m with
  | nil => exact ⟨rfl, hcb⟩
  | cons c cs ih =>
      cases c with
      | reset r =>
          have hud : m.updateDistrib = m := updateDistrib_of_none m hcb
          have hkey : (m.reset r).1.distrib = m.distrib ∧
              (m.reset r).1.compute_lp = m.compute_lp ∧
              (m.reset r).1.compute_distrib = m.compute_distrib := by
            cases hn : npChoice m.envs.length m.updateDistrib.distrib r with
            | error e =>
                obtain ⟨h1, _⟩ := reset_error_fields m r e hn
                rw [h1, hud]
                exact ⟨rfl, rfl, rfl⟩
            | ok i =>
                obtain ⟨_, h2, _, _, h5, h6, _, _⟩ := reset_ok_fields m r i hn
                refine ⟨h2.trans ?_, h5, h6⟩
                rw [hud]
          obtain ⟨hA, hB, hC⟩ := hkey
          have hcb2 : (m.reset r).1.compute_lp = none ∨
              (m.reset r).1.compute_distrib = none := by
            rcases hcb with h | h
            · exact Or.inl (hB.trans h)
            · exact Or.inr (hC.trans h)
          have := ih (m.reset r).1 hcb2
          show ((m.reset r).1.runCalls cs).distrib = m.distrib ∧ _
          exact ⟨this.1.trans hA, this.2⟩
      | step a =>
          cases hs : m.step a with
          | none =>
              have heq : m.runCalls (.step a :: cs) = m.runCalls cs := by
                conv_lhs => rw [MEnv.runCalls]
                rw [hs]
              rw [heq]
              exact ih m hcb
          | some om =>
              obtain ⟨out, m2⟩ := om
              obtain ⟨hd, hclp, hcd, _, _, _⟩ := step_some_preserves m a out m2 hs
              have heq : m.runCalls (.step a :: cs) = m2.runCalls cs := by
                conv_lhs => rw [MEnv.runCalls]
                rw [hs]
              rw [heq]
              have hcb2 : m2.compute_lp = none ∨ m2.compute_distrib = none := by
                rcases hcb with h | h
                · exact Or.inl (hclp.trans h)
                · exact Or.inr (hcd.trans h)
              have := ih m2 hcb2
              exact ⟨this.1.trans hd, this.2⟩
      | render mode => exact ih m hcb

/-- A reset whose draw is in `[0, 1)` preserves the active-selection
invariant (and so does a reset whose draw raises, since the selection is
assigned only after a successful draw). -/
theorem reset_goodsel (m : MEnv σ Obs Act Info) [Inhabited σ]
    [Inhabited Obs] [Inhabited Info] (r : ℚ) (h0 : 0 ≤ r) (h1 : r < 1)
    (hm : m.GoodSel) : (m.reset r).1.GoodSel := by
  cases hn : npChoice m.envs.length m.updateDistrib.distrib r with
  | error e =>
      obtain ⟨heq, _⟩ := reset_error_fields m r e hn
      obtain ⟨i, hi, hlt⟩ := hm
      refine ⟨i, ?_, ?_⟩
      · rw [heq]; simpa using hi
      · rw [heq]; simpa using hlt
  | ok i =>
      obtain ⟨hid, _, _, _, _, _, h7, _⟩ := reset_ok_fields m r i hn
      obtain ⟨hlen, hsum, hieq⟩ := npChoice_ok_elim _ _ _ _ hn
      have hilt : i < m.envs.length := by
        rw [hieq]
        have h2 := categorical_lt m.updateDistrib.distrib r h0
          (by rw [hsum]; exact h1)
        rwa [hlen] at h2
      refine ⟨i, hid, ?_⟩
      rw [h7]
      simpa using hilt

/-- Any trace of calls whose resets draw within `[0, 1)` preserves the
active-selection invariant. -/
theorem runCalls_goodsel (m : MEnv σ Obs Act Info) [Inhabited σ]
    [Inhabited Obs] [Inhabited Info] (cs : List (MCall Act))
    (hcs : ∀ c ∈ cs, MCall.validR c) (hm : m.GoodSel) :
    (m.runCalls cs).GoodSel := by
  induction cs generalizing m with
  | nil => exact hm
  | cons c cs ih =>
      have hc := hcs c (List.mem_cons_self c cs)
      have hcs2 : ∀ c2 ∈ cs, MCall.validR c2 :=
        fun c2 h2 => hcs c2 (List.mem_cons_of_mem c h2)
      cases c with
      | reset r =>
          obtain ⟨h0, h1⟩ := hc
          show ((m.reset r).1.runCalls cs).GoodSel
          exact ih _ hcs2 (reset_goodsel m r h0 h1 hm)
      | step a =>
          cases hs : m.step a with
          | none =>
              have heq : m.runCalls (.step a :: cs) = m.runCalls cs := by
                conv_lhs => rw [MEnv.runCalls]
                rw [hs]
              rw [heq]
              exact ih m hcs2 hm
          | some om =>
              obtain ⟨out, m2⟩ := om
              obtain ⟨_, _, _, hid, hlen, _⟩ := step_some_preserves m a out m2 hs
              have heq : m.runCalls (.step a :: cs) = m2.runCalls cs := by
                conv_lhs => rw [MEnv.runCalls]
                rw [hs]
              rw [heq]
              obtain ⟨i, hi, hlt⟩ := hm
              exact ih m2 hcs2 ⟨i, hid.trans hi, hlen ▸ hlt⟩
      | render mode => exact ih m hcs2 hm

/-- Construction `__init__` succeeds for a non-empty collection: its internal first
reset draws from the valid uniform distribution, so it establishes an
active selection and leaves the uniform distribution in place. -/
theorem make_fields (envs : List (SubEnv σ Obs Act Info)) [Inhabited σ]
    [Inhabited Obs] [Inhabited Info] (clp : Option (Nat → ℚ → ℚ))
    (cd : Option (ℚ → List ℚ)) (r : ℚ)
    (hN : 1 ≤ envs.length) (h0 : 0 ≤ r) (h1 : r < 1) :
    (MEnv.make envs clp cd r).1.GoodSel ∧
    (MEnv.make envs clp cd r).1.distrib =
      List.replicate envs.length ((1 : ℚ) / envs.length) ∧
    (MEnv.make envs clp cd r).1.compute_lp = clp ∧
    (MEnv.make envs clp cd r).1.compute_distrib = cd ∧
    (MEnv.make envs clp cd r).1.envs.length = envs.length ∧
    (MEnv.make envs clp cd r).1.returnn = some 0 := by
  set m0 : MEnv σ Obs Act Info :=
    { envs := envs
      compute_lp := clp
      compute_distrib := cd
      env_id := none
      returnn := none
      lps := none
      distrib := List.replicate envs.length ((1 : ℚ) / envs.length) } with hm0
  have hmk : MEnv.make envs clp cd r = m0.reset r := rfl
  have hud : m0.updateDistrib = m0 := updateDistrib_of_returnn_none m0 rfl
  have hch : npChoice m0.envs.length m0.updateDistrib.distrib r =
      .ok (categorical (List.replicate envs.length ((1 : ℚ) / envs.length)) r) := by
    rw [hud]
    exact npChoice_uniform_ok envs.length r hN
  obtain ⟨hid, hd, _, hrtn, hclp, hcd, h7, _⟩ := reset_ok_fields m0 r _ hch
  have hilt : categorical (List.replicate envs.length ((1 : ℚ) / envs.length)) r
      < envs.length := by
    have h2 := categorical_lt (List.replicate envs.length ((1 : ℚ) / envs.length)) r h0
      (by rw [uniform_sum envs.length hN]; exact h1)
    simpa using h2
  rw [hmk]
  refine ⟨⟨_, hid, ?_⟩, by rw [hd, hud], hclp, hcd, by rw [h7]; simp, hrtn⟩
  rw [h7]
  simpa using hilt

/-! ## Claim C1 -/

/-- Claim C1: on every non-first `reset()` (an episode was active) with both
callbacks supplied, the reset computes the progress signal from the previous
active index and the accumulated return, replaces the sampling distribution
wholesale with the distribution callback's output, resets the accumulator to
0, draws the new active index from the current (just-updated) distribution,
sets the active selection to the sub-environment at that index, and returns
that sub-environment's `reset()` observation unchanged. -/
theorem reset_full_update_cycle (m : MEnv σ Obs Act Info) [Inhabited σ]
    [Inhabited Obs] [Inhabited Info] (r : ℚ) (f : Nat → ℚ → ℚ)
    (g : ℚ → List ℚ) (j : Nat) (ret : ℚ) (d : List ℚ) (i : Nat)
    (hf : m.compute_lp = some f) (hg : m.compute_distrib = some g)
    (hret : m.returnn = some ret) (hj : m.env_id = some j)
    (hd : d = g (f j ret)) (hi : i = categorical d r)
    (hlen : d.length = m.envs.length) (hnn : ∀ q ∈ d, 0 ≤ q)
    (hsum : d.sum = 1) :
    (m.reset r).1.lps = some (f j ret) ∧
    (m.reset r).1.distrib = d ∧
    (m.reset r).1.returnn = some 0 ∧
    (m.reset r).1.env_id = some i ∧
    (m.reset r).1.activeEnv = (m.reset r).1.envs.get? i ∧
    (m.reset r).2 = .ok ((m.envs.getD i default).resetFn
                           (m.envs.getD i default).state).1 := by
  have hud := updateDistrib_of_some m f g ret hf hg hret
  rw [hj] at hud
  simp only [Option.getD_some] at hud
  have hch : npChoice m.envs.length m.updateDistrib.distrib r = .ok i := by
    rw [hud.1, ← hd, hi]
    exact npChoice_ok_of_valid m.envs.length d r hlen hnn hsum
  obtain ⟨hid, hdis, hlps, hrtn, _, _, _, hobs⟩ := reset_ok_fields m r i hch
  refine ⟨hlps.trans hud.2, hdis.trans (hud.1.trans hd.symm), hrtn, hid, ?_, hobs⟩
  simp [MEnv.activeEnv, hid]

/-- Witness for C1 at a concrete meta-environment: previous index 1, return
5, progress `5 + 1 = 6`, new distribution `[1/4, 3/4]`, draw `1/2` lands in
index 1, whose sub-environment resets to observation 100. -/
theorem reset_full_update_cycle_witness :
    (mBoth.reset (1/2)).1.lps = some 6 ∧
    (mBoth.reset (1/2)).1.distrib = [1/4, 3/4] ∧
    (mBoth.reset (1/2)).1.returnn = some 0 ∧
    (mBoth.reset (1/2)).1.env_id = some 1 ∧
    (mBoth.reset (1/2)).1.activeEnv = (mBoth.reset (1/2)).1.envs.get? 1 ∧
    (mBoth.reset (1/2)).2 = .ok 100 := by
  obtain ⟨h1, h2, h3, h4, h5, h6⟩ :=
    reset_full_update_cycle mBoth (1/2) (fun i q => q + i) (fun _ => [1/4, 3/4])
      1 5 [1/4, 3/4] 1 rfl rfl rfl rfl rfl
      (by norm_num [categorical])
      (by simp [mBoth])
      (by intro q hq; simp at hq; rcases hq with h | h <;> rw [h] <;> norm_num)
      (by norm_num)
  refine ⟨?_, h2, h3, h4, h5, ?_⟩
  · rw [h1]; norm_num
  · rw [h6]; rfl

/-! ## Claim C2 -/

/-- Claim C2: for every `N ≥ 1` and every sequence of `reset`/`step` calls
on a meta-environment constructed with at least one callback omitted
(`None`), the sampling distribution is the uniform vector of `N` entries
`1/N` after construction and after every reset (the trace below covers any
prefix of calls, in particular every post-reset state). -/
theorem distrib_stays_uniform (envs : List (SubEnv σ Obs Act Info))
    [Inhabited σ] [Inhabited Obs] [Inhabited Info]
    (clp : Option (Nat → ℚ → ℚ)) (cd : Option (ℚ → List ℚ)) (r0 : ℚ)
    (cs : List (MCall Act)) (hN : 1 ≤ envs.length)
    (hcb : clp = none ∨ cd = none) :
    ((MEnv.make envs clp cd r0).1.runCalls cs).distrib =
      List.replicate envs.length ((1 : ℚ) / envs.length) := by
  set m0 : MEnv σ Obs Act Info :=
    { envs := envs
      compute_lp := clp
      compute_distrib := cd
      env_id := none
      returnn := none
      lps := none
      distrib := List.replicate envs.length ((1 : ℚ) / envs.length) } with hm0
  have hmk : MEnv.make envs clp cd r0 = m0.reset r0 := rfl
  have hud : m0.updateDistrib = m0 := updateDistrib_of_returnn_none m0 rfl
  have hch : npChoice m0.envs.length m0.updateDistrib.distrib r0 =
      .ok (categorical (List.replicate envs.length ((1 : ℚ) / envs.length)) r0) := by
    rw [hud]
    exact npChoice_uniform_ok envs.length r0 hN
  obtain ⟨_, hd, _, _, hclp, hcd, _, _⟩ := reset_ok_fields m0 r0 _ hch
  have hcb2 : (MEnv.make envs clp cd r0).1.compute_lp = none ∨
      (MEnv.make envs clp cd r0).1.compute_distrib = none := by
    rw [hmk]
    rcases hcb with h | h
    · exact Or.inl (hclp.trans h)
    · exact Or.inr (hcd.trans h)
  have hst := runCalls_static (MEnv.make envs clp cd r0).1 cs hcb2
  rw [hst.1, hmk, hd, hud]

/-- Witness for C2: three sub-environments, progress callback omitted;
after construction, a reset, a step and another reset the distribution is
still `[1/3, 1/3, 1/3]`. -/
theorem distrib_stays_uniform_witness :
    ((MEnv.make [testEnv 0, testEnv 1, testEnv 2] none (some fun _ => [1])
        (1/2)).1.runCalls
      [MCall.reset (1/3), MCall.step 7, MCall.reset (2/3)]).distrib =
      List.replicate 3 ((1 : ℚ) / 3) := by
  have h := distrib_stays_uniform [testEnv 0, testEnv 1, testEnv 2] none
    (some fun _ => [1]) (1/2)
    [MCall.reset (1/3), MCall.step 7, MCall.reset (2/3)]
    (by norm_num) (Or.inl rfl)
  simpa using h

/-! ## Claim C3 -/

/-- Claim C3: every `step(action)` call with an active selection delegates
to the active sub-environment's `step` and returns its result unchanged,
adds the returned reward to the episode accumulator, and consequently at
the moment progress is computed during the next `reset()` the accumulator
equals the exact sum of the rewards returned by the steps since the
previous reset (later rewards cannot contribute: the progress input is read
at reset time). -/
theorem step_delegates_and_accumulates (m : MEnv σ Obs Act Info)
    [Inhabited σ] [Inhabited Obs] [Inhabited Info] (a : Act)
    (as : List Act) (r : ℚ) (i : Nat) (f : Nat → ℚ → ℚ) (g : ℚ → List ℚ)
    (hi : m.env_id = some i) (hz : m.returnn = some 0)
    (hf : m.compute_lp = some f) (hg : m.compute_distrib = some g) :
    (m.step a).map Prod.fst =
      some ((m.envs.getD i default).stepFn (m.envs.getD i default).state a).1 ∧
    (∀ out m2, m.step a = some (out, m2) → m2.returnn = some out.2.1) ∧
    (m.runSteps as).1.returnn = some ((m.runSteps as).2).sum ∧
    ((m.runSteps as).1.reset r).1.lps = some (f i ((m.runSteps as).2).sum) := by
  obtain ⟨hrtn, hid, hclp, hcd⟩ := runSteps_returnn m as i 0 hi hz
  rw [zero_add] at hrtn
  refine ⟨?_, ?_, hrtn, ?_⟩
  · rw [step_eq m a i 0 hi hz]
    rfl
  · intro out m2 hm
    have h := (step_some_preserves m a out m2 hm).2.2.2.2.2 0 hz
    rwa [zero_add] at h
  · set mf := (m.runSteps as).1 with hmf
    have hud := updateDistrib_of_some mf f g (((m.runSteps as).2).sum)
      (hclp.trans hf) (hcd.trans hg) hrtn
    rw [hid] at hud
    simp only [Option.getD_some] at hud
    cases hn : npChoice mf.envs.length mf.updateDistrib.distrib r with
    | error e =>
        obtain ⟨h1, _⟩ := reset_error_fields mf r e hn
        rw [h1]
        exact hud.2
    | ok k =>
        obtain ⟨_, _, hlps, _, _, _, _, _⟩ := reset_ok_fields mf r k hn
        exact hlps.trans hud.2

/-- Witness for C3: from the start of an episode on sub-environment 1, one
step with action 2 returns that sub-environment's tuple with reward 2 and
sets the accumulator to 2; after actions `[2, 3]` the accumulator equals
the reward sum, and the next reset computes the progress from it
(`(2 + 3) + 1 = 6`). -/
theorem step_delegates_and_accumulates_witness :
    (mZero.step 2).map Prod.fst = some (10, 2, false, 1) ∧
    (mZero.step 2).map (fun x => x.2.returnn) = some (some 2) ∧
    (mZero.runSteps [2, 3]).1.returnn = some ((mZero.runSteps [2, 3]).2).sum ∧
    ((mZero.runSteps [2, 3]).1.reset (1/2)).1.lps = some 6 := by
  obtain ⟨h1, h2, h3, h4⟩ :=
    step_delegates_and_accumulates mZero 2 [2, 3] (1/2) 1
      (fun i q => q + i) (fun _ => [1/4, 3/4]) rfl rfl rfl rfl
  have hstep := step_eq mZero 2 1 0 rfl rfl
  refine ⟨?_, ?_, h3, ?_⟩
  · rw [h1]
    norm_num [mZero, testEnv]
  · have hr := h2 _ _ hstep
    rw [hstep]
    simp only [Option.map_some]
    rw [show (0 : ℚ) + ((mZero.envs.getD 1 default).stepFn
          (mZero.envs.getD 1 default).state 2).1.2.1 =
        ((mZero.envs.getD 1 default).stepFn
          (mZero.envs.getD 1 default).state 2).1.2.1 from zero_add _] at hr ⊢
    norm_num [mZero, testEnv, List.getD]
  · have hsum : ((mZero.runSteps [2, 3]).2).sum = 5 := by
      have hstep2 := step_eq mZero 2 1 0 rfl rfl
      rw [runSteps_cons_of_step _ _ _ _ _ hstep2]
      norm_num [MEnv.runSteps, MEnv.step, mZero, testEnv]
    rw [h4, hsum]
    norm_num

/-! ## Claim C4 -/

/-- Counterexample to C4 as stated: a distribution-updating reset (episode
active, both callbacks present, `N = 2`) whose callback returns the
one-entry vector `[1]` stores that malformed vector as the sampling
distribution — the source performs no validation at the store, so after the
update the stored distribution does not have `N` entries (the subsequent
draw then raises `ValueError` inside `numpy.random.choice`). -/
theorem distrib_update_unvalidated :
    mBad.returnn.isSome = true ∧ mBad.compute_lp.isSome = true ∧
    mBad.compute_distrib.isSome = true ∧ mBad.num_envs = 2 ∧
    (mBad.reset (1/3)).1.distrib = [1] ∧
    ¬ (mBad.reset (1/3)).1.distrib.length = 2 ∧
    (mBad.reset (1/3)).2 = .error "a and p must have same size" := by
  have hud := updateDistrib_of_some mBad (fun i q => q + i) (fun _ => [1])
    3 rfl rfl rfl
  have hch : npChoice mBad.envs.length mBad.updateDistrib.distrib (1/3) =
      .error "a and p must have same size" := by
    rw [hud.1]
    show npChoice 2 [1] (1/3) = _
    unfold npChoice
    norm_num
  obtain ⟨h1, h2⟩ := reset_error_fields mBad (1/3) _ hch
  have hd : (mBad.reset (1/3)).1.distrib = [1] := by
    rw [h1]
    show mBad.updateDistrib.distrib = [1]
    rw [hud.1]
  refine ⟨rfl, rfl, rfl, rfl, hd, ?_, h2⟩
  rw [hd]
  norm_num

/-- Claim C4, amended: for a meta-environment with both callbacks and an
active episode, after any distribution-updating `reset()` that returns
normally the stored distribution has exactly `N` entries and sums to 1
(exactly, over `ℚ`): `numpy.random.choice` validates the freshly stored
weights when it draws, so a reset that stores a malformed distribution
raises instead of returning. -/
theorem distrib_valid_after_ok_update (m : MEnv σ Obs Act Info)
    [Inhabited σ] [Inhabited Obs] [Inhabited Info] (r : ℚ)
    (f : Nat → ℚ → ℚ) (g : ℚ → List ℚ) (ret : ℚ) (obs : Obs)
    (hf : m.compute_lp = some f) (hg : m.compute_distrib = some g)
    (hret : m.returnn = some ret)
    (hok : (m.reset r).2 = .ok obs) :
    (m.reset r).1.distrib.length = m.num_envs ∧
    (m.reset r).1.distrib.sum = 1 := by
  cases hn : npChoice m.envs.length m.updateDistrib.distrib r with
  | error e =>
      obtain ⟨_, h2⟩ := reset_error_fields m r e hn
      rw [h2] at hok
      cases hok
  | ok i =>
      obtain ⟨_, hdis, _, _, _, _, _, _⟩ := reset_ok_fields m r i hn
      obtain ⟨hlen, hsum, _⟩ := npChoice_ok_elim _ _ _ _ hn
      rw [hdis]
      exact ⟨hlen, hsum⟩

/-- Witness for the amended C4: the concrete updating reset of C1's scenario
returns normally and leaves the two-entry distribution `[1/4, 3/4]`,
which sums to 1. -/
theorem distrib_valid_after_ok_update_witness :
    (mBoth.reset (1/2)).1.distrib.length = mBoth.num_envs ∧
    (mBoth.reset (1/2)).1.distrib.sum = 1 := by
  have hud := updateDistrib_of_some mBoth (fun i q => q + i)
    (fun _ => [1/4, 3/4]) 5 rfl rfl rfl
  have hch : npChoice mBoth.envs.length mBoth.updateDistrib.distrib (1/2) =
      .ok (categorical mBoth.updateDistrib.distrib (1/2)) := by
    apply npChoice_ok_of_valid
    · rw [hud.1]
      show (2 : Nat) = mBoth.envs.length
      rfl
    · rw [hud.1]
      intro q hq
      simp at hq
      rcases hq with h | h <;> rw [h] <;> norm_num
    · rw [hud.1]
      norm_num
  have hobs := (reset_ok_fields mBoth (1/2) _ hch).2.2.2.2.2.2.2
  exact distrib_valid_after_ok_update mBoth (1/2) (fun i q => q + i)
    (fun _ => [1/4, 3/4]) 5 _ rfl rfl rfl hobs

/-! ## Claim C5 -/

/-- Claim C5: whenever `reset()` selects from a valid probability vector of
length `N` (the distribution current at selection time, i.e. after the
possible update phase), the drawn index lies in `[0, N)` and the active
selection becomes the entry of the collection at exactly that index. -/
theorem reset_selects_index_in_range (m : MEnv σ Obs Act Info)
    [Inhabited σ] [Inhabited Obs] [Inhabited Info] (r : ℚ)
    (h0 : 0 ≤ r) (h1 : r < 1)
    (hlen : m.updateDistrib.distrib.length = m.num_envs)
    (hnn : ∀ q ∈ m.updateDistrib.distrib, 0 ≤ q)
    (hsum : m.updateDistrib.distrib.sum = 1) :
    ∃ i, i = categorical m.updateDistrib.distrib r ∧ i < m.num_envs ∧
      (m.reset r).1.env_id = some i ∧
      (m.reset r).1.activeEnv = (m.reset r).1.envs.get? i ∧
      ((m.reset r).1.activeEnv).isSome = true := by
  have hch : npChoice m.envs.length m.updateDistrib.distrib r =
      .ok (categorical m.updateDistrib.distrib r) :=
    npChoice_ok_of_valid _ _ _ hlen hnn hsum
  set i := categorical m.updateDistrib.distrib r with hi
  have hilt : i < m.num_envs := by
    have h2 := categorical_lt m.updateDistrib.distrib r h0
      (by rw [hsum]; exact h1)
    rw [hlen] at h2
    exact h2
  obtain ⟨hid, _, _, _, _, _, h7, _⟩ := reset_ok_fields m r i hch
  have hact : (m.reset r).1.activeEnv = (m.reset r).1.envs.get? i := by
    simp [MEnv.activeEnv, hid]
  refine ⟨i, rfl, hilt, hid, hact, ?_⟩
  rw [hact, h7]
  have hilt2 : i < (m.envs.set i
      { m.envs.getD i default with
        state := ((m.envs.getD i default).resetFn
                    (m.envs.getD i default).state).2 }).length := by
    simpa using hilt
  rw [List.get?_eq_get hilt2]
  rfl

/-- Witness for C5: on the concrete `mBoth` (whose update phase yields the
valid two-entry distribution `[1/4, 3/4]`), the draw `1/2` selects index 1,
and the active selection is the collection's entry at index 1. -/
theorem reset_selects_index_in_range_witness :
    ∃ i, i = categorical mBoth.updateDistrib.distrib (1/2) ∧
      i < mBoth.num_envs ∧
      (mBoth.reset (1/2)).1.env_id = some i ∧
      (mBoth.reset (1/2)).1.activeEnv = (mBoth.reset (1/2)).1.envs.get? i ∧
      ((mBoth.reset (1/2)).1.activeEnv).isSome = true := by
  have hud := updateDistrib_of_some mBoth (fun i q => q + i)
    (fun _ => [1/4, 3/4]) 5 rfl rfl rfl
  apply reset_selects_index_in_range mBoth (1/2) (by norm_num) (by norm_num)
  · rw [hud.1]
    show (2 : Nat) = mBoth.envs.length
    rfl
  · rw [hud.1]
    intro q hq
    simp at hq
    rcases hq with h | h <;> rw [h] <;> norm_num
  · rw [hud.1]
    norm_num

/-! ## Claim C6 -/

/-- Claim C6: for a non-empty collection, construction itself establishes
an active selection (its internal first reset draws an index), and every
subsequent trace of reset/step/render calls keeps the active selection
equal to an entry of the fixed collection — `self.env` is never `None`
once `__init__` has returned. -/
theorem active_selection_never_null (envs : List (SubEnv σ Obs Act Info))
    [Inhabited σ] [Inhabited Obs] [Inhabited Info]
    (clp : Option (Nat → ℚ → ℚ)) (cd : Option (ℚ → List ℚ)) (r0 : ℚ)
    (cs : List (MCall Act)) (hN : 1 ≤ envs.length)
    (h00 : 0 ≤ r0) (h01 : r0 < 1) (hcs : ∀ c ∈ cs, MCall.validR c) :
    ∃ i, ((MEnv.make envs clp cd r0).1.runCalls cs).env_id = some i ∧
      i < ((MEnv.make envs clp cd r0).1.runCalls cs).envs.length ∧
      ((MEnv.make envs clp cd r0).1.runCalls cs).activeEnv =
        ((MEnv.make envs clp cd r0).1.runCalls cs).envs.get? i ∧
      (((MEnv.make envs clp cd r0).1.runCalls cs).activeEnv).isSome = true := by
  have hgs0 : (MEnv.make envs clp cd r0).1.GoodSel :=
    (make_fields envs clp cd r0 hN h00 h01).1
  obtain ⟨i, hid, hilt⟩ :=
    runCalls_goodsel (MEnv.make envs clp cd r0).1 cs hcs hgs0
  have hact : ((MEnv.make envs clp cd r0).1.runCalls cs).activeEnv =
      ((MEnv.make envs clp cd r0).1.runCalls cs).envs.get? i := by
    simp [MEnv.activeEnv, hid]
  refine ⟨i, hid, hilt, hact, ?_⟩
  rw [hact, List.get?_eq_get hilt]
  rfl

/-- Witness for C6: a concrete three-environment construction followed by a
reset, a step, a render and another reset keeps an in-range active
selection. -/
theorem active_selection_never_null_witness :
    ∃ i, ((MEnv.make [testEnv 0, testEnv 1, testEnv 2] none none
          (1/2)).1.runCalls
        [MCall.reset (1/3), MCall.step 7, MCall.render "human",
         MCall.reset (2/3)]).env_id = some i ∧
      i < ((MEnv.make [testEnv 0, testEnv 1, testEnv 2] none none
          (1/2)).1.runCalls
        [MCall.reset (1/3), MCall.step 7, MCall.render "human",
         MCall.reset (2/3)]).envs.length ∧
      ((MEnv.make [testEnv 0, testEnv 1, testEnv 2] none none
          (1/2)).1.runCalls
        [MCall.reset (1/3), MCall.step 7, MCall.render "human",
         MCall.reset (2/3)]).activeEnv =
        ((MEnv.make [testEnv 0, testEnv 1, testEnv 2] none none
          (1/2)).1.runCalls
        [MCall.reset (1/3), MCall.step 7, MCall.render "human",
         MCall.reset (2/3)]).envs.get? i ∧
      (((MEnv.make [testEnv 0, testEnv 1, testEnv 2] none none
          (1/2)).1.runCalls
        [MCall.reset (1/3), MCall.step 7, MCall.render "human",
         MCall.reset (2/3)]).activeEnv).isSome = true := by
  apply active_selection_never_null
  · norm_num
  · norm_num
  · norm_num
  · intro c hc
    fin_cases hc <;> constructor <;> norm_num

/-! ## Helper lemmas: the vocabulary -/

theorem getItem_of_found (v : Vocabulary) (t : String) (e : String × Nat)
    (hf : v.vocab.find? (fun x => x.1 == t) = some e) :
    v.getItem t = (v, .ok e.2) := by
  unfold Vocabulary.getItem
  rw [hf]

theorem getItem_of_absent_room (v : Vocabulary) (t : String)
    (hf : v.vocab.find? (fun x => x.1 == t) = none)
    (hroom : v.vocab.length < v.max_size) :
    v.getItem t = ({ v with vocab := v.vocab ++ [(t, v.vocab.length + 1)] },
                   .ok (v.vocab.length + 1)) := by
  unfold Vocabulary.getItem
  rw [hf, if_neg (not_le.mpr hroom)]

theorem getItem_of_absent_full (v : Vocabulary) (t : String)
    (hf : v.vocab.find? (fun x => x.1 == t) = none)
    (hfull : v.max_size ≤ v.vocab.length) :
    v.getItem t = (v, .error "Maximum vocabulary capacity reached") := by
  unfold Vocabulary.getItem
  rw [hf, if_pos hfull]

theorem getItem_of_lookup_some (v : Vocabulary) (t : String) (i : Nat)
    (h : v.lookup t = some i) : v.getItem t = (v, .ok i) := by
  unfold Vocabulary.lookup at h
  cases hf : v.vocab.find? (fun e => e.1 == t) with
  | some e =>
      rw [hf] at h
      simp only [Option.map_some', Option.some.injEq] at h
      rw [getItem_of_found v t e hf, h]
  | none =>
      rw [hf] at h
      simp at h

theorem lookup_none_find?_none (v : Vocabulary) (t : String)
    (h : v.lookup t = none) :
    v.vocab.find? (fun e => e.1 == t) = none := by
  unfold Vocabulary.lookup at h
  cases hf : v.vocab.find? (fun e => e.1 == t) with
  | some e => rw [hf] at h; simp at h
  | none => rfl

/-! ## Claim C7 -/

/-- Claim C7: a `Vocabulary` lookup of a token already in the mapping
returns its stored id and leaves the mapping unchanged; an unseen token,
with fewer than `max_size` entries stored, is assigned the next integer id
(`len + 1`) which is returned; an unseen token at capacity raises the
capacity error, leaves the mapping unchanged, and any previously assigned
token re-queried afterwards still yields its original id. -/
theorem vocab_getItem_spec (v : Vocabulary) (t : String) :
    (∀ i, v.lookup t = some i → v.getItem t = (v, .ok i)) ∧
    (v.lookup t = none → v.vocab.length < v.max_size →
      v.getItem t = ({ v with vocab := v.vocab ++ [(t, v.vocab.length + 1)] },
                     .ok (v.vocab.length + 1))) ∧
    (v.lookup t = none → v.max_size ≤ v.vocab.length →
      v.getItem t = (v, .error "Maximum vocabulary capacity reached") ∧
      ∀ t2 i2, v.lookup t2 = some i2 →
        ((v.getItem t).1.getItem t2).2 = .ok i2) := by
  refine ⟨fun i hi => getItem_of_lookup_some v t i hi, ?_, ?_⟩
  · intro hnone hroom
    exact getItem_of_absent_room v t (lookup_none_find?_none v t hnone) hroom
  · intro hnone hfull
    have he := getItem_of_absent_full v t (lookup_none_find?_none v t hnone) hfull
    refine ⟨he, ?_⟩
    intro t2 i2 h2
    rw [he]
    rw [getItem_of_lookup_some v t2 i2 h2]

/-- Witness for C7, the spec's capacity scenario: with `max_size = 2` and
`"a" → 1`, `"b" → 2` stored, `"a"` returns 1 with the mapping unchanged,
`"c"` raises the capacity error, and re-querying `"a"` afterwards still
returns 1. -/
theorem vocab_getItem_spec_witness :
    vAB.getItem "a" = (vAB, .ok 1) ∧
    vAB.getItem "c" = (vAB, .error "Maximum vocabulary capacity reached") ∧
    ((vAB.getItem "c").1.getItem "a").2 = .ok 1 := by
  have hc := (vocab_getItem_spec vAB "c").2.2 (by decide) (by decide)
  have ha := (vocab_getItem_spec vAB "a").1 1 (by decide)
  exact ⟨ha, hc.1, hc.2 "a" 1 (by decide)⟩

/-! ## Claim C8 -/

/-- Claim C8: saving a vocabulary and constructing a new one over the same
run directory reproduces the identical token → id mapping (same tokens,
same ids, nothing else). -/
theorem vocab_save_load_roundtrip (rd : String) (fs : FS) (v : Vocabulary)
    (hp : v.path = get_vocab_path rd) :
    (Vocabulary.init rd (v.save fs)).vocab = v.vocab := by
  unfold Vocabulary.init Vocabulary.save FS.write FS.read
  rw [hp]
  simp

/-- Witness for C8: saving the two-token vocabulary into an empty
filesystem and reloading from the run directory `"run"` reproduces
`"a" → 1`, `"b" → 2` exactly. -/
theorem vocab_save_load_roundtrip_witness :
    (Vocabulary.init "run" (vAB.save ⟨[]⟩)).vocab = [("a", 1), ("b", 2)] := by
  have h := vocab_save_load_roundtrip "run" ⟨[]⟩ vAB (by decide)
  rw [h]
  rfl

/-! ## Helper lemmas: the preprocessor -/

theorem processMissions_length (v : Vocabulary) (ms : List String)
    (v2 : Vocabulary) (raws : List (List Nat))
    (h : v.processMissions ms = (v2, .ok raws)) :
    raws.length = ms.length := by
  induction ms generalizing v v2 raws with
  | nil =>
      unfold Vocabulary.processMissions at h
      simp only [Prod.mk.injEq, Except.ok.injEq] at h
      rw [← h.2]
      rfl
  | cons mi ms ih =>
      unfold Vocabulary.processMissions at h
      rcases hmt : v.mapTokens (tokenize mi) with ⟨vtk, res⟩
      rw [hmt] at h
      cases res with
      | error e => simp at h
      | ok row =>
          rcases hpm : vtk.processMissions ms with ⟨v3, res2⟩
          simp only [hpm] at h
          cases res2 with
          | error e => simp at h
          | ok rows2 =>
              simp only [Prod.mk.injEq, Except.ok.injEq] at h
              rw [← h.2]
              simp only [List.length_cons]
              rw [ih vtk v3 rows2 hpm]

theorem le_foldl_max (rows : List (List Nat)) (b : Nat) :
    b ≤ rows.foldl (fun acc row => max row.length acc) b := by
  induction rows generalizing b with
  | nil => simp
  | cons r rs ih =>
      simp only [List.foldl_cons]
      exact le_trans (le_max_right r.length b) (ih (max r.length b))

theorem length_le_foldl_max (rows : List (List Nat)) (b : Nat) :
    ∀ row ∈ rows, row.length ≤
      rows.foldl (fun acc row => max row.length acc) b := by
  induction rows generalizing b with
  | nil =>
      intro row h
      cases h
  | cons r rs ih =>
      intro row h
      simp only [List.foldl_cons]
      rcases List.mem_cons.mp h with h2 | h2
      · subst h2
        exact le_trans (le_max_left _ _) (le_foldl_max rs _)
      · exact ih (max r.length b) row h2

theorem length_le_maxInstrLen (rows : List (List Nat)) (row : List Nat)
    (h : row ∈ rows) : row.length ≤ maxInstrLen rows :=
  length_le_foldl_max rows 0 row h

/-! ## Claim C9 -/

/-- Claim C9: for a non-empty batch of observations, each mission string is
lowercased, split into maximal `a`–`z` runs and mapped to ids through the
vocabulary (that is the content of `processMissions`); the resulting
instruction batch has one row per observation, every row has the length of
the longest token sequence in the batch, and each row is that observation's
ids in order followed by zeros. -/
theorem preprocess_instrs_shape (v : Vocabulary) (ms : List String)
    (v2 : Vocabulary) (raws : List (List Nat)) (hne : ms ≠ [])
    (h : v.processMissions ms = (v2, .ok raws)) :
    v.preprocessInstrs ms =
      (v2, .ok (raws.map (fun row => padRow row (maxInstrLen raws)))) ∧
    raws.length = ms.length ∧
    ∀ row ∈ raws,
      row.length ≤ maxInstrLen raws ∧
      (padRow row (maxInstrLen raws)).length = maxInstrLen raws ∧
      (padRow row (maxInstrLen raws)).take row.length = row ∧
      (padRow row (maxInstrLen raws)).drop row.length =
        List.replicate (maxInstrLen raws - row.length) 0 := by
  refine ⟨?_, processMissions_length v ms v2 raws h, ?_⟩
  · unfold Vocabulary.preprocessInstrs
    rw [h]
  · intro row hrow
    have hle : row.length ≤ maxInstrLen raws :=
      length_le_maxInstrLen raws row hrow
    refine ⟨hle, ?_, ?_, ?_⟩
    · unfold padRow
      rw [List.length_append, List.length_replicate]
      omega
    · unfold padRow
      exact List.take_left row _
    · unfold padRow
      exact List.drop_left row _

/-- Witness for C9, the spec's scenario: two observations with token
lengths 2 and 4 yield the batch `[[1,2,0,0],[3,4,5,6]]` of shape `(2, 4)`,
the first row zero-padded in its last two positions. -/
theorem preprocess_instrs_shape_witness :
    (vEmpty.preprocessInstrs ["Go to", "Open the red door"]).2 =
      .ok [[1, 2, 0, 0], [3, 4, 5, 6]] ∧
    ([[1, 2], [3, 4, 5, 6]] : List (List Nat)).length =
      (["Go to", "Open the red door"] : List String).length ∧
    ([1, 2] : List Nat).length ≤ maxInstrLen [[1, 2], [3, 4, 5, 6]] ∧
    (padRow [1, 2] (maxInstrLen [[1, 2], [3, 4, 5, 6]])).drop 2 = [0, 0] := by
  obtain ⟨h1, h2, h3⟩ := preprocess_instrs_shape vEmpty
    ["Go to", "Open the red door"]
    { path := "run/vocab.json", max_size := 100,
      vocab := [("go", 1), ("to", 2), ("open", 3), ("the", 4),
                ("red", 5), ("door", 6)] }
    [[1, 2], [3, 4, 5, 6]] (by decide) rfl
  obtain ⟨h4, _, _, h5⟩ := h3 [1, 2] (by decide)
  refine ⟨?_, h2, h4, ?_⟩
  · rw [h1]
    rfl
  · exact h5.trans (by decide)

/-! ## Claim C10 -/

/-- Claim C10: vocabulary ids are handed out consecutively as
`1, 2, …, max_size`: a lookup preserves the consecutive-ids invariant,
every id it returns lies in `[1, max_size]` — so id 0 is never assigned
and cannot collide with the preprocessor's zero padding — and no stored
entry ever carries id 0. -/
theorem vocab_ids_positive (v : Vocabulary) (t : String)
    (h : v.ConsecIds) :
    (v.getItem t).1.ConsecIds ∧
    (∀ i, (v.getItem t).2 = .ok i → 1 ≤ i ∧ i ≤ v.max_size) ∧
    (∀ e ∈ (v.getItem t).1.vocab, e.2 ≠ 0) := by
  obtain ⟨hmap, hcap⟩ := h
  have hstored : ∀ e ∈ v.vocab, 1 ≤ e.2 ∧ e.2 ≤ v.vocab.length := by
    intro e he
    have h2 : e.2 ∈ v.vocab.map Prod.snd := List.mem_map_of_mem Prod.snd he
    rw [hmap] at h2
    obtain ⟨ha, hb⟩ := List.mem_range'_1.mp h2
    omega
  cases hf : v.vocab.find? (fun e => e.1 == t) with
  | some e =>
      have heq := getItem_of_found v t e hf
      rw [heq]
      have he := hstored e (List.mem_of_find?_eq_some hf)
      refine ⟨⟨hmap, hcap⟩, ?_, ?_⟩
      · intro i hi
        simp only [Except.ok.injEq] at hi
        subst hi
        omega
      · intro e2 he2
        have := hstored e2 he2
        omega
  | none =>
      by_cases hroom : v.vocab.length < v.max_size
      · have heq := getItem_of_absent_room v t hf hroom
        rw [heq]
        refine ⟨⟨?_, ?_⟩, ?_, ?_⟩
        · show (v.vocab ++ [(t, v.vocab.length + 1)]).map Prod.snd = _
          rw [List.map_append, hmap, List.length_append]
          simp only [List.map_cons, List.map_nil, List.length_singleton]
          rw [List.range'_1_concat, Nat.add_comm v.vocab.length 1]
        · show (v.vocab ++ [(t, v.vocab.length + 1)]).length ≤ v.max_size
          rw [List.length_append]
          simp only [List.length_singleton]
          omega
        · intro i hi
          simp only [Except.ok.injEq] at hi
          subst hi
          omega
        · intro e2 he2
          rcases List.mem_append.mp he2 with h2 | h2
          · have := hstored e2 h2
            omega
          · simp only [List.mem_singleton] at h2
            subst h2
            omega
      · have heq := getItem_of_absent_full v t hf (not_lt.mp hroom)
        rw [heq]
        refine ⟨⟨hmap, hcap⟩, ?_, ?_⟩
        · intro i hi
          simp at hi
        · intro e2 he2
          have := hstored e2 he2
          omega

/-- Witness for C10: on the two-token vocabulary (ids 1 and 2), looking up
`"a"` keeps the consecutive-ids invariant, the returned id 1 lies in
`[1, max_size]`, and the stored entry `("a", 1)` has a nonzero id. -/
theorem vocab_ids_positive_witness :
    (vAB.getItem "a").1.ConsecIds ∧ (1 ≤ 1 ∧ 1 ≤ vAB.max_size) ∧
    ("a", 1).2 ≠ 0 := by
  obtain ⟨h1, h2, h3⟩ := vocab_ids_positive vAB "a" ⟨by decide, by decide⟩
  exact ⟨h1, h2 1 rfl, h3 ("a", 1) (by decide)⟩

end AutoCurriculum
